import Mathlib

/- Shallow embedding of the trading212 portfolio viewer's snapshot store,
   change calculator, trend detector, alert engine and instrument-metadata
   cache (src/main/store/dataStore.js, src/main/alerts/alerts.js,
   src/main/main.js).

   Modelling conventions:
   * JS numbers are modelled as rationals.
   * Timestamps are milliseconds since the Unix epoch (Nat).
   * Snapshot keys are modelled as day numbers (milliseconds div 86400000).
     The source keys snapshots by ISO-8601 date strings, which compare
     lexicographically in chronological order, so the string comparisons in
     the source correspond to the numeric order used here.  The string
     rendering itself is modelled separately (toISOChars, dateToKey).
   * A JS object or Map is modelled as an insertion-ordered association
     list; assignment overwrites in place, `Map.get` returns the most
     recently inserted binding.
-/

namespace T212

/-- Milliseconds in one day. -/
def msPerDay : Nat := 86400000

/-- Calendar day (UTC) of an epoch-millisecond timestamp; the day component
that `Date.prototype.toISOString` reports. -/
def utcDay (ms : Nat) : Nat := ms / msPerDay

/-- Position record as returned by the Trading 212 API client. -/
structure Position where
  ticker : String
  quantity : ℚ
  averagePrice : ℚ
  currentPrice : ℚ
  ppl : ℚ
  deriving DecidableEq, Repr

/-- Stored snapshot: `saveSnapshot` stores `{ positions, timestamp }`. -/
structure Snapshot where
  positions : List Position
  timestamp : Nat
  deriving DecidableEq, Repr

/-- Lookup in an insertion-ordered association list (JS `obj[key]`, absent
keys read as null). -/
def getKey {κ α : Type} [DecidableEq κ] (m : List (κ × α)) (k : κ) : Option α :=
  (m.find? (fun p => decide (p.1 = k))).map (fun p => p.2)

/-- Assignment `obj[key] = v` on a JS object: overwrite in place when the key
exists, otherwise append (insertion order preserved). -/
def setKey {κ α : Type} [DecidableEq κ] (m : List (κ × α)) (k : κ) (v : α) : List (κ × α) :=
  if m.any (fun p => decide (p.1 = k)) then
    m.map (fun p => if p.1 = k then (p.1, v) else p)
  else
    m ++ [(k, v)]

/-- Insert an element into a sorted list, after every element strictly
smaller and before the first element it is `le` to. -/
def insertSorted {α : Type} (le : α → α → Bool) (x : α) : List α → List α
  | [] => [x]
  | y :: ys => if le x y then x :: y :: ys else y :: insertSorted le x ys

/-- Stable sort.  `Array.prototype.sort` with a consistent comparator is a
stable ascending sort (ES2019); any stable sort computes the same list, so
this structural insertion sort is its extensional model. -/
def stableSort {α : Type} (le : α → α → Bool) : List α → List α
  | [] => []
  | x :: xs => insertSorted le x (stableSort le xs)

/-- Persisted DataStore state relevant to the claims. -/
structure StoreState where
  snapshots : List (Nat × Snapshot)
  lastPositions : List Position
  lastFetchTime : Option Nat
  deriving DecidableEq, Repr

/-- DataStore.saveSnapshot(positions) with the wall clock reading `now`:
store the snapshot under today's key (replacing any entry for that key),
delete every key strictly older than the key of (now minus 90 days), and
record lastPositions and lastFetchTime. -/
def saveSnapshot (positions : List Position) (now : Nat) (st : StoreState) : StoreState :=
  let today := utcDay now
  let snaps := setKey st.snapshots today { positions := positions, timestamp := now }
  let cutoffKey := utcDay (now - 90 * msPerDay)
  let pruned := snaps.filter (fun p => !(decide (p.1 < cutoffKey)))
  { snapshots := pruned
    lastPositions := positions
    lastFetchTime := some now }

/-- DataStore.getYesterdaySnapshot: exact lookup under the key one calendar
day before `now` (`new Date()` moved back one day, then keyed). -/
def getYesterdaySnapshot (now : Nat) (st : StoreState) : Option Snapshot :=
  getKey st.snapshots (utcDay (now - msPerDay))

/-- Lookup a position by ticker, as a JS Map built by inserting the list in
order and then calling `.get`: the last position with the ticker wins. -/
def lookupTicker (ps : List Position) (t : String) : Option Position :=
  ps.reverse.find? (fun p => decide (p.ticker = t))

/-- DataStore._extractShortTicker: the text before the first underscore
(`fullTicker.split('_')[0]`; a falsy ticker yields the empty string). -/
def extractShortTicker (t : String) : String :=
  if t = "" then "" else String.mk (t.data.takeWhile (fun c => c != '_'))

/-- Output of DataStore.calculateDailyChanges: the original position (kept
whole by the object spread) plus the daily change fields. -/
structure EnrichedPosition where
  base : Position
  dailyChange : ℚ
  dailyChangePercent : ℚ
  hasYesterdayData : Bool
  shortTicker : String
  deriving DecidableEq, Repr

/-- Ticker of the underlying position (spread into the enriched object). -/
def EnrichedPosition.ticker (e : EnrichedPosition) : String := e.base.ticker

/-- Current price of the underlying position (spread into the enriched
object). -/
def EnrichedPosition.currentPrice (e : EnrichedPosition) : ℚ := e.base.currentPrice

/-- Body of the `currentPositions.map` callback in calculateDailyChanges:
enrich one current position against yesterday's position list. -/
def enrichPosition (ypos : List Position) (position : Position) : EnrichedPosition :=
  match lookupTicker ypos position.ticker with
  | some yesterdayPosition =>
    let yesterdayValue := yesterdayPosition.currentPrice
    let currentValue := position.currentPrice
    { base := position
      dailyChange := currentValue - yesterdayValue
      dailyChangePercent :=
        if 0 < yesterdayValue then (currentValue - yesterdayValue) / yesterdayValue * 100 else 0
      hasYesterdayData := true
      shortTicker := extractShortTicker position.ticker }
  | none =>
    { base := position
      dailyChange := 0
      dailyChangePercent := 0
      hasYesterdayData := false
      shortTicker := extractShortTicker position.ticker }

/-- Position list of yesterday's snapshot, empty when absent (the
`if (yesterday && yesterday.positions)` guard of calculateDailyChanges: an
absent snapshot leaves the lookup map empty). -/
def yesterdayPositions (now : Nat) (st : StoreState) : List Position :=
  match getYesterdaySnapshot now st with
  | some s => s.positions
  | none => []

/-- DataStore.calculateDailyChanges(currentPositions) with the wall clock
reading `now`. -/
def calculateDailyChanges (now : Nat) (st : StoreState) (currentPositions : List Position) :
    List EnrichedPosition :=
  currentPositions.map (enrichPosition (yesterdayPositions now st))

/-- Entry of the list detectDowntrends returns. -/
structure TrendResult where
  ticker : String
  shortTicker : String
  startPrice : ℚ
  endPrice : ℚ
  changePercent : ℚ
  days : Nat
  deriving DecidableEq, Repr

/-- Snapshot keys in ascending order: `Object.keys(snapshots).sort()`
(lexicographic order on ISO date strings is chronological order). -/
def sortedKeys (st : StoreState) : List Nat :=
  stableSort (fun a b => decide (a ≤ b)) (st.snapshots.map Prod.fst)

/-- The `.slice(-days)` tail of the sorted key list.  For `days = 0`,
JS `slice(-0)` is `slice(0)`: the whole array. -/
def windowKeys (keys : List Nat) (days : Nat) : List Nat :=
  if days = 0 then keys else keys.drop (keys.length - days)

/-- DataStore.detectDowntrends(days, threshold): compare each position of the
last snapshot in the window against the first, keep tickers whose change is
at or below the threshold, sort worst first. -/
def detectDowntrends (st : StoreState) (days : Nat) (threshold : ℚ) : List TrendResult :=
  let snapshotDates := windowKeys (sortedKeys st) days
  if snapshotDates.length < 2 then []
  else
    match getKey st.snapshots (snapshotDates.headD 0),
          getKey st.snapshots (snapshotDates.getLastD 0) with
    | some firstSnapshot, some lastSnapshot =>
      let downtrends := lastSnapshot.positions.filterMap (fun currentPos =>
        match lookupTicker firstSnapshot.positions currentPos.ticker with
        | some startPos =>
          let startPrice := startPos.currentPrice
          let endPrice := currentPos.currentPrice
          let changePercent := (endPrice - startPrice) / startPrice * 100
          if changePercent ≤ threshold then
            some { ticker := currentPos.ticker
                   shortTicker := extractShortTicker currentPos.ticker
                   startPrice := startPrice
                   endPrice := endPrice
                   changePercent := changePercent
                   days := snapshotDates.length }
          else none
        | none => none)
      stableSort (fun a b => decide (a.changePercent ≤ b.changePercent)) downtrends
    | _, _ => []

/-- Start-day prices detectDowntrends divides by: one division per matched
ticker, performed before any threshold test, with no zero guard. -/
def detectDowntrendsDivisors (st : StoreState) (days : Nat) : List ℚ :=
  let snapshotDates := windowKeys (sortedKeys st) days
  if snapshotDates.length < 2 then []
  else
    match getKey st.snapshots (snapshotDates.headD 0),
          getKey st.snapshots (snapshotDates.getLastD 0) with
    | some firstSnapshot, some lastSnapshot =>
      lastSnapshot.positions.filterMap (fun currentPos =>
        (lookupTicker firstSnapshot.positions currentPos.ticker).map (fun p => p.currentPrice))
    | _, _ => []

/-- Previous-day prices calculateDailyChanges divides by: the code only
divides inside its `yesterdayValue > 0` guard. -/
def calculateDailyChangesDivisors (now : Nat) (st : StoreState)
    (currentPositions : List Position) : List ℚ :=
  currentPositions.filterMap (fun position =>
    match lookupTicker (yesterdayPositions now st) position.ticker with
    | some yp => if 0 < yp.currentPrice then some yp.currentPrice else none
    | none => none)

/-- Alert event (the human-readable message and the timestamp text are
omitted; fields carried by only one alert type are optional). -/
structure Alert where
  type : String
  ticker : String
  shortTicker : String
  changePercent : ℚ
  currentPrice : Option ℚ
  threshold : Option ℚ
  days : Option Nat
  deriving DecidableEq, Repr

/-- Mutable state of AlertManager: thresholds (null disables) and the set of
dedup keys already shown. -/
structure AlertState where
  dailyLossThreshold : Option ℚ
  dailyGainThreshold : Option ℚ
  shownAlerts : List String
  deriving DecidableEq, Repr

/-- Constructor or updateThresholds argument.  `none` is an absent field
(JS undefined), `some none` an explicit null, `some (some q)` a number. -/
structure AlertConfig where
  dailyLossThreshold : Option (Option ℚ)
  dailyGainThreshold : Option (Option ℚ)
  deriving DecidableEq, Repr

/-- AlertManager constructor: `config.dailyLossThreshold ?? -5` — the nullish
coalescing operator substitutes the default for undefined and for null. -/
def mkAlertManager (config : AlertConfig) : AlertState :=
  { dailyLossThreshold := match config.dailyLossThreshold with
      | some (some q) => some q
      | _ => some (-5)
    dailyGainThreshold := match config.dailyGainThreshold with
      | some (some q) => some q
      | _ => some 10
    shownAlerts := [] }

/-- AlertManager.updateThresholds: a field is copied iff it is not undefined;
an explicit null is copied as null. -/
def updateThresholds (st : AlertState) (config : AlertConfig) : AlertState :=
  { st with
    dailyLossThreshold := match config.dailyLossThreshold with
      | some v => v
      | none => st.dailyLossThreshold
    dailyGainThreshold := match config.dailyGainThreshold with
      | some v => v
      | none => st.dailyGainThreshold }

/-- Dedup key, the source's template literal "ticker:kind:date". -/
def alertKey (ticker kind today : String) : String :=
  ticker ++ ":" ++ kind ++ ":" ++ today

/-- Daily-loss branch of AlertManager.checkAlerts for one position. -/
def checkLossAlert (st : AlertState) (position : EnrichedPosition) (today : String) :
    List Alert × AlertState :=
  match st.dailyLossThreshold with
  | none => ([], st)
  | some thr =>
    if position.dailyChangePercent ≤ thr then
      if alertKey position.ticker "loss" today ∈ st.shownAlerts then ([], st)
      else
        ([{ type := "daily_loss"
            ticker := position.ticker
            shortTicker := position.shortTicker
            changePercent := position.dailyChangePercent
            currentPrice := some position.currentPrice
            threshold := some thr
            days := none }],
         { st with shownAlerts := alertKey position.ticker "loss" today :: st.shownAlerts })
    else ([], st)

/-- Daily-gain branch of AlertManager.checkAlerts for one position. -/
def checkGainAlert (st : AlertState) (position : EnrichedPosition) (today : String) :
    List Alert × AlertState :=
  match st.dailyGainThreshold with
  | none => ([], st)
  | some thr =>
    if thr ≤ position.dailyChangePercent then
      if alertKey position.ticker "gain" today ∈ st.shownAlerts then ([], st)
      else
        ([{ type := "daily_gain"
            ticker := position.ticker
            shortTicker := position.shortTicker
            changePercent := position.dailyChangePercent
            currentPrice := some position.currentPrice
            threshold := some thr
            days := none }],
         { st with shownAlerts := alertKey position.ticker "gain" today :: st.shownAlerts })
    else ([], st)

/-- Per-position body of the checkAlerts loop: positions without yesterday
data are skipped, otherwise the loss check runs and then the gain check. -/
def checkPositionAlerts (st : AlertState) (position : EnrichedPosition) (today : String) :
    List Alert × AlertState :=
  if position.hasYesterdayData then
    ((checkLossAlert st position today).1 ++
       (checkGainAlert (checkLossAlert st position today).2 position today).1,
     (checkGainAlert (checkLossAlert st position today).2 position today).2)
  else ([], st)

/-- AlertManager.checkAlerts(positionsWithChanges); `today` is the dedup day
component the source derives from the wall clock. -/
def checkAlerts (st : AlertState) (positions : List EnrichedPosition) (today : String) :
    List Alert × AlertState :=
  match positions with
  | [] => ([], st)
  | p :: rest =>
    ((checkPositionAlerts st p today).1 ++
       (checkAlerts (checkPositionAlerts st p today).2 rest today).1,
     (checkAlerts (checkPositionAlerts st p today).2 rest today).2)

/-- AlertManager.checkDowntrendAlerts(downtrends); every key uses the literal
kind "downtrend". -/
def checkDowntrendAlerts (st : AlertState) (trends : List TrendResult) (today : String) :
    List Alert × AlertState :=
  match trends with
  | [] => ([], st)
  | trend :: rest =>
    if alertKey trend.ticker "downtrend" today ∈ st.shownAlerts then
      checkDowntrendAlerts st rest today
    else
      ({ type := "downtrend"
         ticker := trend.ticker
         shortTicker := trend.shortTicker
         changePercent := trend.changePercent
         currentPrice := none
         threshold := none
         days := some trend.days } ::
        (checkDowntrendAlerts
          { st with shownAlerts := alertKey trend.ticker "downtrend" today :: st.shownAlerts }
          rest today).1,
       (checkDowntrendAlerts
         { st with shownAlerts := alertKey trend.ticker "downtrend" today :: st.shownAlerts }
         rest today).2)

/-- Instrument record as returned by the API client's getInstruments. -/
structure Instrument where
  ticker : String
  name : String
  currencyCode : String
  isin : String
  deriving DecidableEq, Repr

/-- Value stored in the instrumentsMap cache. -/
structure InstrumentMeta where
  name : String
  currencyCode : String
  isin : String
  deriving DecidableEq, Repr

/-- The for-loop in main.js refreshData that fills `instrumentsMap`. -/
def buildInstrumentsMap (instruments : List Instrument) : List (String × InstrumentMeta) :=
  instruments.foldl
    (fun m inst => setKey m inst.ticker
      { name := inst.name, currencyCode := inst.currencyCode, isin := inst.isin })
    []

/-- Metadata block of main.js refreshData: the fetch runs only when
`instrumentsMap` is null (`if (!instrumentsMap)`); on success the built map
is kept, on failure the cache is set to an empty map ("to prevent
retrying").  Returns the cache after the cycle and whether this cycle
attempted the fetch. -/
def refreshInstruments (cache : Option (List (String × InstrumentMeta)))
    (fetchResult : Except Unit (List Instrument)) :
    Option (List (String × InstrumentMeta)) × Bool :=
  match cache with
  | some m => (some m, false)
  | none =>
    match fetchResult with
    | Except.ok instruments => (some (buildInstrumentsMap instruments), true)
    | Except.error _ => (some [], true)

/-- Decimal digit character. -/
def digitChar (n : Nat) : Char := Char.ofNat (48 + n)

/-- Decimal digits of a number, most significant first (fuel recursion). -/
def natCharsAux : Nat → Nat → List Char
  | 0, _ => []
  | fuel + 1, n => if n < 10 then [digitChar n] else natCharsAux fuel (n / 10) ++ [digitChar (n % 10)]

/-- Decimal rendering of a Nat. -/
def natChars (n : Nat) : List Char := natCharsAux (n + 1) n

/-- Two-digit zero-padded rendering. -/
def pad2 (n : Nat) : List Char := if n < 10 then ['0', digitChar n] else natChars n

/-- Three-digit zero-padded rendering. -/
def pad3 (n : Nat) : List Char :=
  if n < 10 then ['0', '0', digitChar n]
  else if n < 100 then '0' :: natChars n
  else natChars n

/-- Gregorian date (year, month, day) of a day number counted from
1970-01-01, by the standard era-based conversion JS Date uses. -/
def civilFromDays (z0 : Nat) : Nat × Nat × Nat :=
  let z := z0 + 719468
  let era := z / 146097
  let doe := z % 146097
  let yoe := (doe - doe / 1460 + doe / 36524 - doe / 146096) / 365
  let y := yoe + era * 400
  let doy := doe - (365 * yoe + yoe / 4 - yoe / 100)
  let mp := (5 * doy + 2) / 153
  let d := doy - (153 * mp + 2) / 5 + 1
  let m := if mp < 10 then mp + 3 else mp - 9
  (if m ≤ 2 then y + 1 else y, m, d)

/-- Characters "YYYY-MM-DD" of a day number (years 1970 to 9999). -/
def isoDateChars (day : Nat) : List Char :=
  let c := civilFromDays day
  natChars c.1 ++ '-' :: (pad2 c.2.1 ++ '-' :: pad2 c.2.2)

/-- Characters "HH:MM:SS.mmm" of a millisecond offset into a day. -/
def isoTimeChars (msInDay : Nat) : List Char :=
  pad2 (msInDay / 3600000) ++
    ':' :: (pad2 (msInDay % 3600000 / 60000) ++
      ':' :: (pad2 (msInDay % 60000 / 1000) ++ '.' :: pad3 (msInDay % 1000)))

/-- Date.prototype.toISOString: "YYYY-MM-DDTHH:MM:SS.mmmZ", always UTC. -/
def toISOChars (ms : Nat) : List Char :=
  isoDateChars (utcDay ms) ++ 'T' :: (isoTimeChars (ms % msPerDay) ++ ['Z'])

/-- DataStore._dateToKey: `date.toISOString().split('T')[0]`, the characters
before the first 'T'. -/
def dateToKey (ms : Nat) : List Char :=
  (toISOChars ms).takeWhile (fun c => c != 'T')

/-- Day component of the alert dedup keys: alerts.js computes
`new Date().toISOString().split('T')[0]` at each call site. -/
def alertDayChars (ms : Nat) : List Char :=
  (toISOChars ms).takeWhile (fun c => c != 'T')

/-- Calendar day of a timestamp in a host time zone east of UTC by
`tzMinutes` minutes (what a local-time day derivation would produce). -/
def localDay (ms : Nat) (tzMinutes : Nat) : Nat :=
  (ms + tzMinutes * 60000) / msPerDay

/-! Helper lemmas about the list and sorting primitives. -/

lemma mem_insertSorted {α : Type} {le : α → α → Bool} {x y : α} {l : List α} :
    y ∈ insertSorted le x l ↔ y = x ∨ y ∈ l := by
  induction l with
  | nil => simp [insertSorted]
  | cons z zs ih =>
    by_cases h : le x z = true
    · simp only [insertSorted, if_pos h, List.mem_cons]
    · simp only [insertSorted, if_neg h, List.mem_cons, ih]
      tauto

lemma mem_stableSort {α : Type} {le : α → α → Bool} {y : α} {l : List α} :
    y ∈ stableSort le l ↔ y ∈ l := by
  induction l with
  | nil => simp [stableSort]
  | cons z zs ih => simp [stableSort, mem_insertSorted, ih, List.mem_cons]

lemma pairwise_insertSorted {α : Type} {le : α → α → Bool}
    (htot : ∀ a b, le a b = true ∨ le b a = true)
    (htrans : ∀ a b c, le a b = true → le b c = true → le a c = true)
    {x : α} {l : List α} (hl : l.Pairwise (fun a b => le a b = true)) :
    (insertSorted le x l).Pairwise (fun a b => le a b = true) := by
  induction l with
  | nil => simp [insertSorted]
  | cons z zs ih =>
    obtain ⟨hz, hzs⟩ := List.pairwise_cons.mp hl
    by_cases h : le x z = true
    · rw [insertSorted, if_pos h]
      refine List.Pairwise.cons ?_ (List.Pairwise.cons hz hzs)
      intro b hb
      rcases List.mem_cons.mp hb with rfl | hb
      · exact h
      · exact htrans x z b h (hz b hb)
    · have hzx : le z x = true := by
        rcases htot x z with h1 | h1
        · exact absurd h1 h
        · exact h1
      rw [insertSorted, if_neg h]
      refine List.Pairwise.cons ?_ (ih hzs)
      intro b hb
      rcases mem_insertSorted.mp hb with rfl | hb
      · exact hzx
      · exact hz b hb

lemma pairwise_stableSort {α : Type} {le : α → α → Bool}
    (htot : ∀ a b, le a b = true ∨ le b a = true)
    (htrans : ∀ a b c, le a b = true → le b c = true → le a c = true)
    (l : List α) :
    (stableSort le l).Pairwise (fun a b => le a b = true) := by
  induction l with
  | nil => simp [stableSort]
  | cons z zs ih => exact pairwise_insertSorted htot htrans ih

lemma getKey_append_right {κ α : Type} [DecidableEq κ] {m : List (κ × α)} {k : κ} {v : α}
    (h : m.any (fun p => decide (p.1 = k)) = false) :
    getKey (m ++ [(k, v)]) k = some v := by
  induction m with
  | nil => simp [getKey, List.find?]
  | cons q rest ih =>
    simp only [List.any_cons, Bool.or_eq_false_iff, decide_eq_false_iff_not] at h
    simp only [getKey, List.cons_append, List.find?]
    rw [decide_eq_false h.1]
    exact ih (by simpa using h.2)

lemma find?_setMap {κ α : Type} [DecidableEq κ] {m : List (κ × α)} {k : κ} {v : α}
    (h : m.any (fun p => decide (p.1 = k)) = true) :
    (m.map (fun p => if p.1 = k then (p.1, v) else p)).find? (fun p => decide (p.1 = k)) =
      some (k, v) := by
  induction m with
  | nil => simp at h
  | cons q rest ih =>
    by_cases hq : q.1 = k
    · simp only [List.map_cons, if_pos hq, List.find?]
      rw [decide_eq_true hq]
      simp [hq]
    · have h' : rest.any (fun p => decide (p.1 = k)) = true := by
        simpa [hq] using h
      simp only [List.map_cons, if_neg hq, List.find?]
      rw [decide_eq_false hq]
      exact ih h'

lemma getKey_setKey_self {κ α : Type} [DecidableEq κ] (m : List (κ × α)) (k : κ) (v : α) :
    getKey (setKey m k v) k = some v := by
  unfold setKey
  split
  · rename_i h
    simp only [getKey]
    rw [find?_setMap h]
    rfl
  · rename_i h
    exact getKey_append_right (Bool.eq_false_iff.mpr h)

lemma getKey_filter {κ α : Type} [DecidableEq κ] {m : List (κ × α)} {f : κ × α → Bool} {k : κ}
    (h : ∀ x ∈ m, x.1 = k → f x = true) :
    getKey (m.filter f) k = getKey m k := by
  induction m with
  | nil => rfl
  | cons q rest ih =>
    have ih' := ih (fun x hx => h x (List.mem_cons_of_mem q hx))
    by_cases hq : q.1 = k
    · have hf : f q = true := h q (List.mem_cons_self q rest) hq
      simp only [List.filter_cons, hf, if_pos, getKey, List.find?]
      rw [decide_eq_true hq]
    · cases hf : f q
      · simpa [getKey, List.filter_cons, hf, List.find?, decide_eq_false hq] using ih'
      · simpa [getKey, List.filter_cons, hf, List.find?, decide_eq_false hq] using ih'

lemma getKey_eq_none {κ α : Type} [DecidableEq κ] {m : List (κ × α)} {k : κ}
    (h : ∀ x ∈ m, x.1 ≠ k) : getKey m k = none := by
  unfold getKey
  rw [List.find?_eq_none.mpr]
  · rfl
  · intro x hx
    simp [h x hx]

/-! Lemmas about lookupTicker. -/

lemma lookupTicker_some {ps : List Position} {t : String} {q : Position}
    (h : lookupTicker ps t = some q) : q.ticker = t ∧ q ∈ ps := by
  unfold lookupTicker at h
  have h1 := List.find?_some h
  have h2 := List.mem_of_find?_eq_some h
  simp only [decide_eq_true_eq] at h1
  exact ⟨h1, List.mem_reverse.mp h2⟩

lemma lookupTicker_none {ps : List Position} {t : String} :
    lookupTicker ps t = none ↔ ∀ q ∈ ps, q.ticker ≠ t := by
  unfold lookupTicker
  rw [List.find?_eq_none]
  constructor
  · intro h q hq
    have := h q (List.mem_reverse.mpr hq)
    simpa using this
  · intro h q hq
    simpa using h q (List.mem_reverse.mp hq)

/-! Claim theorems. -/

/-- C1: after `saveSnapshot positions now`, every key remaining in the
snapshots map is at or after the key of (now minus 90 days); every strictly
older key reads as absent; the snapshot is stored under the save day's key,
fully replacing any existing entry for that key; and lastFetchTime is the
save time. -/
theorem saveSnapshot_retention (positions : List Position) (now : Nat) (st : StoreState) :
    (∀ k s, (k, s) ∈ (saveSnapshot positions now st).snapshots →
      utcDay (now - 90 * msPerDay) ≤ k) ∧
    (∀ k, k < utcDay (now - 90 * msPerDay) →
      getKey (saveSnapshot positions now st).snapshots k = none) ∧
    getKey (saveSnapshot positions now st).snapshots (utcDay now) =
      some { positions := positions, timestamp := now } ∧
    (saveSnapshot positions now st).lastFetchTime = some now := by
  have hcut : utcDay (now - 90 * msPerDay) ≤ utcDay now :=
    Nat.div_le_div_right (Nat.sub_le now (90 * msPerDay))
  have hmem : ∀ k s, (k, s) ∈ (saveSnapshot positions now st).snapshots →
      utcDay (now - 90 * msPerDay) ≤ k := by
    intro k s hks
    simp only [saveSnapshot, List.mem_filter] at hks
    have h2 : ¬ (k < utcDay (now - 90 * msPerDay)) := by
      have := hks.2
      simp only [Bool.not_eq_true', decide_eq_false_iff_not] at this
      exact this
    exact Nat.le_of_not_lt h2
  refine ⟨hmem, ?_, ?_, rfl⟩
  · intro k hk
    apply getKey_eq_none
    intro x hx heq
    have hle := hmem x.1 x.2 (by simpa using hx)
    rw [heq] at hle
    omega
  · show getKey ((setKey st.snapshots (utcDay now)
        { positions := positions, timestamp := now }).filter
          (fun p => !(decide (p.1 < utcDay (now - 90 * msPerDay))))) (utcDay now) =
      some { positions := positions, timestamp := now }
    rw [getKey_filter, getKey_setKey_self]
    intro x hx hxk
    rw [hxk]
    simp only [Bool.not_eq_true', decide_eq_false_iff_not]
    omega

/-- Witness for C1 at a concrete input: saving on 2024-01-01 evicts a
stale key from 2023 far outside the retention window. -/
theorem saveSnapshot_retention_witness :
    5 < T212.utcDay (1704067200000 - 90 * T212.msPerDay) ∧
    getKey (saveSnapshot ([] : List Position) 1704067200000
      { snapshots := [(5, { positions := [], timestamp := 0 })],
        lastPositions := [], lastFetchTime := none }).snapshots 5 = none :=
  ⟨by decide,
   (saveSnapshot_retention [] 1704067200000
     { snapshots := [(5, { positions := [], timestamp := 0 })],
       lastPositions := [], lastFetchTime := none }).2.1 5 (by decide)⟩

/-- C2: getYesterdaySnapshot is an exact lookup under the key of the calendar
day immediately preceding the current one (no fallback to older days), and
when that key is absent calculateDailyChanges marks every position with
hasYesterdayData = false. -/
theorem getYesterdaySnapshot_exact (now : Nat) (st : StoreState)
    (h : msPerDay ≤ now) :
    getYesterdaySnapshot now st = getKey st.snapshots (utcDay now - 1) ∧
    (getYesterdaySnapshot now st = none →
      ∀ currentPositions : List Position,
        ∀ e ∈ calculateDailyChanges now st currentPositions,
          e.hasYesterdayData = false) := by
  constructor
  · have h1 : msPerDay * 1 ≤ now := by simpa using h
    have h2 := Nat.sub_mul_div now msPerDay 1 h1
    unfold getYesterdaySnapshot utcDay
    rw [Nat.mul_one] at h2
    rw [h2]
  · intro hnone currentPositions e he
    simp only [calculateDailyChanges, List.mem_map] at he
    obtain ⟨p, _, rfl⟩ := he
    simp [enrichPosition, lookupTicker, yesterdayPositions, hnone]

/-- Witness for C2 at a concrete input: a store holding only a snapshot two
days old yields no yesterday snapshot and no hasYesterdayData flags. -/
theorem getYesterdaySnapshot_exact_witness :
    T212.msPerDay ≤ 1704067200000 ∧
    getYesterdaySnapshot 1704067200000
      { snapshots := [(19721, { positions := [], timestamp := 0 })],
        lastPositions := [], lastFetchTime := none } =
    getKey [(19721, ({ positions := [], timestamp := 0 } : Snapshot))]
      (T212.utcDay 1704067200000 - 1) :=
  ⟨by decide,
   (getYesterdaySnapshot_exact 1704067200000
     { snapshots := [(19721, { positions := [], timestamp := 0 })],
       lastPositions := [], lastFetchTime := none } (by decide)).1⟩

/-- C3: calculateDailyChanges matches by exact ticker equality; matched
positions get dailyChange = current minus previous price, percent change
when the previous price is positive and zero otherwise, with
hasYesterdayData = true; unmatched current positions get zero deltas and
hasYesterdayData = false; previous-only tickers yield no record (the output
has exactly one record per current position, in input order). -/
theorem calculateDailyChanges_matching (now : Nat) (st : StoreState)
    (currentPositions : List Position) :
    (calculateDailyChanges now st currentPositions).length = currentPositions.length ∧
    (∀ ps t q, lookupTicker ps t = some q → q.ticker = t ∧ q ∈ ps) ∧
    (∀ ps t, lookupTicker ps t = none ↔ ∀ q ∈ ps, q.ticker ≠ t) ∧
    (∀ (i : Nat) (p : Position) (e : EnrichedPosition), currentPositions[i]? = some p →
      (calculateDailyChanges now st currentPositions)[i]? = some e →
      e.base = p ∧
      (∀ yp, lookupTicker (yesterdayPositions now st) p.ticker = some yp →
        e.hasYesterdayData = true ∧
        e.dailyChange = p.currentPrice - yp.currentPrice ∧
        (0 < yp.currentPrice →
          e.dailyChangePercent = (p.currentPrice - yp.currentPrice) / yp.currentPrice * 100) ∧
        (yp.currentPrice ≤ 0 → e.dailyChangePercent = 0)) ∧
      (lookupTicker (yesterdayPositions now st) p.ticker = none →
        e.hasYesterdayData = false ∧ e.dailyChange = 0 ∧ e.dailyChangePercent = 0)) := by
  refine ⟨by simp [calculateDailyChanges], fun ps t q h => lookupTicker_some h,
    fun ps t => lookupTicker_none, ?_⟩
  intro i p e hp he
  simp only [calculateDailyChanges, List.getElem?_map, hp, Option.map_some'] at he
  obtain rfl : enrichPosition (yesterdayPositions now st) p = e := Option.some.inj he
  refine ⟨?_, ?_, ?_⟩
  · cases hyp : lookupTicker (yesterdayPositions now st) p.ticker <;>
      simp [enrichPosition, hyp]
  · intro yp hyp
    refine ⟨by simp [enrichPosition, hyp], by simp [enrichPosition, hyp], ?_, ?_⟩
    · intro h0
      simp [enrichPosition, hyp, h0]
    · intro h0
      have h1 : ¬ (0 < yp.currentPrice) := not_lt.mpr h0
      simp [enrichPosition, hyp, h1]
  · intro hnone
    simp [enrichPosition, hnone]

/-- Fixture: the Apple position of the spec's end-to-end example, at a given
current price. -/
def applePos (price : ℚ) : Position :=
  { ticker := "AAPL_US_EQ", quantity := 2, averagePrice := 150,
    currentPrice := price, ppl := 20 }

/-- Fixture: a store whose day-19722 snapshot holds Apple at 160, one day
before timestamp 1704067200000 (2024-01-01, day 19723). -/
def appleStore : StoreState :=
  { snapshots := [(19722, { positions := [applePos 160], timestamp := 0 })],
    lastPositions := [], lastFetchTime := none }

/-- Witness for C3 at the spec's end-to-end example: AAPL at 160 yesterday
matched against 150 today. -/
theorem calculateDailyChanges_matching_witness :
    [applePos 150][0]? = some (applePos 150) ∧
    (calculateDailyChanges 1704067200000 appleStore [applePos 150])[0]? =
      some (enrichPosition [applePos 160] (applePos 150)) ∧
    (enrichPosition [applePos 160] (applePos 150)).base = applePos 150 := by
  refine ⟨rfl, rfl, ?_⟩
  exact ((calculateDailyChanges_matching 1704067200000 appleStore [applePos 150]).2.2.2
    0 (applePos 150) (enrichPosition [applePos 160] (applePos 150))
    rfl rfl).1

/-! Lemmas about the alert branches. -/

lemma checkLossAlert_none {st : AlertState} {p : EnrichedPosition} {d : String}
    (h : st.dailyLossThreshold = none) : checkLossAlert st p d = ([], st) := by
  unfold checkLossAlert
  rw [h]

lemma checkGainAlert_none {st : AlertState} {p : EnrichedPosition} {d : String}
    (h : st.dailyGainThreshold = none) : checkGainAlert st p d = ([], st) := by
  unfold checkGainAlert
  rw [h]

lemma mem_checkLossAlert {st : AlertState} {p : EnrichedPosition} {d : String} {a : Alert}
    (ha : a ∈ (checkLossAlert st p d).1) :
    a.type = "daily_loss" ∧ a.ticker = p.ticker := by
  obtain ⟨lossT, gainT, shown⟩ := st
  rcases lossT with _ | thr
  · exact absurd ha (List.not_mem_nil a)
  · dsimp only [checkLossAlert] at ha
    by_cases h1 : p.dailyChangePercent ≤ thr
    · rw [if_pos h1] at ha
      by_cases h2 : alertKey p.ticker "loss" d ∈ shown
      · rw [if_pos h2] at ha
        exact absurd ha (List.not_mem_nil a)
      · rw [if_neg h2] at ha
        simp only [List.mem_singleton] at ha
        subst ha
        exact ⟨rfl, rfl⟩
    · rw [if_neg h1] at ha
      exact absurd ha (List.not_mem_nil a)

lemma mem_checkGainAlert {st : AlertState} {p : EnrichedPosition} {d : String} {a : Alert}
    (ha : a ∈ (checkGainAlert st p d).1) :
    a.type = "daily_gain" ∧ a.ticker = p.ticker := by
  obtain ⟨lossT, gainT, shown⟩ := st
  rcases gainT with _ | thr
  · exact absurd ha (List.not_mem_nil a)
  · dsimp only [checkGainAlert] at ha
    by_cases h1 : thr ≤ p.dailyChangePercent
    · rw [if_pos h1] at ha
      by_cases h2 : alertKey p.ticker "gain" d ∈ shown
      · rw [if_pos h2] at ha
        exact absurd ha (List.not_mem_nil a)
      · rw [if_neg h2] at ha
        simp only [List.mem_singleton] at ha
        subst ha
        exact ⟨rfl, rfl⟩
    · rw [if_neg h1] at ha
      exact absurd ha (List.not_mem_nil a)

lemma checkLossAlert_state (st : AlertState) (p : EnrichedPosition) (d : String) :
    (checkLossAlert st p d).2.dailyLossThreshold = st.dailyLossThreshold ∧
    (checkLossAlert st p d).2.dailyGainThreshold = st.dailyGainThreshold ∧
    ∀ k ∈ st.shownAlerts, k ∈ (checkLossAlert st p d).2.shownAlerts := by
  obtain ⟨lossT, gainT, shown⟩ := st
  rcases lossT with _ | thr
  · exact ⟨rfl, rfl, fun k hk => hk⟩
  · dsimp only [checkLossAlert]
    by_cases h1 : p.dailyChangePercent ≤ thr
    · rw [if_pos h1]
      by_cases h2 : alertKey p.ticker "loss" d ∈ shown
      · rw [if_pos h2]
        exact ⟨rfl, rfl, fun k hk => hk⟩
      · rw [if_neg h2]
        exact ⟨rfl, rfl, fun k hk => List.mem_cons_of_mem _ hk⟩
    · rw [if_neg h1]
      exact ⟨rfl, rfl, fun k hk => hk⟩

lemma checkGainAlert_state (st : AlertState) (p : EnrichedPosition) (d : String) :
    (checkGainAlert st p d).2.dailyLossThreshold = st.dailyLossThreshold ∧
    (checkGainAlert st p d).2.dailyGainThreshold = st.dailyGainThreshold ∧
    ∀ k ∈ st.shownAlerts, k ∈ (checkGainAlert st p d).2.shownAlerts := by
  obtain ⟨lossT, gainT, shown⟩ := st
  rcases gainT with _ | thr
  · exact ⟨rfl, rfl, fun k hk => hk⟩
  · dsimp only [checkGainAlert]
    by_cases h1 : thr ≤ p.dailyChangePercent
    · rw [if_pos h1]
      by_cases h2 : alertKey p.ticker "gain" d ∈ shown
      · rw [if_pos h2]
        exact ⟨rfl, rfl, fun k hk => hk⟩
      · rw [if_neg h2]
        exact ⟨rfl, rfl, fun k hk => List.mem_cons_of_mem _ hk⟩
    · rw [if_neg h1]
      exact ⟨rfl, rfl, fun k hk => hk⟩

lemma checkPositionAlerts_state (st : AlertState) (p : EnrichedPosition) (d : String) :
    (checkPositionAlerts st p d).2.dailyLossThreshold = st.dailyLossThreshold ∧
    (checkPositionAlerts st p d).2.dailyGainThreshold = st.dailyGainThreshold ∧
    ∀ k ∈ st.shownAlerts, k ∈ (checkPositionAlerts st p d).2.shownAlerts := by
  unfold checkPositionAlerts
  by_cases hy : p.hasYesterdayData
  · rw [if_pos hy]
    obtain ⟨l1, l2, l3⟩ := checkLossAlert_state st p d
    obtain ⟨g1, g2, g3⟩ := checkGainAlert_state (checkLossAlert st p d).2 p d
    exact ⟨g1.trans l1, g2.trans l2, fun k hk => g3 k (l3 k hk)⟩
  · rw [if_neg hy]
    exact ⟨rfl, rfl, fun k hk => hk⟩

lemma checkAlerts_state (st : AlertState) (ps : List EnrichedPosition) (d : String) :
    (checkAlerts st ps d).2.dailyLossThreshold = st.dailyLossThreshold ∧
    (checkAlerts st ps d).2.dailyGainThreshold = st.dailyGainThreshold ∧
    ∀ k ∈ st.shownAlerts, k ∈ (checkAlerts st ps d).2.shownAlerts := by
  induction ps generalizing st with
  | nil => exact ⟨rfl, rfl, fun k hk => hk⟩
  | cons p rest ih =>
    obtain ⟨p1, p2, p3⟩ := checkPositionAlerts_state st p d
    obtain ⟨r1, r2, r3⟩ := ih (checkPositionAlerts st p d).2
    exact ⟨r1.trans p1, r2.trans p2, fun k hk => r3 k (p3 k hk)⟩

lemma mem_checkPositionAlerts {st : AlertState} {p : EnrichedPosition} {d : String} {a : Alert}
    (ha : a ∈ (checkPositionAlerts st p d).1) :
    p.hasYesterdayData = true ∧ a.ticker = p.ticker ∧
    (a.type = "daily_loss" ∨ a.type = "daily_gain") := by
  unfold checkPositionAlerts at ha
  by_cases hy : p.hasYesterdayData
  · rw [if_pos hy] at ha
    rcases List.mem_append.mp ha with h | h
    · obtain ⟨ht, htk⟩ := mem_checkLossAlert h
      exact ⟨hy, htk, Or.inl ht⟩
    · obtain ⟨ht, htk⟩ := mem_checkGainAlert h
      exact ⟨hy, htk, Or.inr ht⟩
  · rw [if_neg hy] at ha
    simp at ha

lemma mem_checkAlerts {st : AlertState} {ps : List EnrichedPosition} {d : String} {a : Alert}
    (ha : a ∈ (checkAlerts st ps d).1) :
    ∃ p ∈ ps, p.hasYesterdayData = true ∧ a.ticker = p.ticker ∧
      (a.type = "daily_loss" ∨ a.type = "daily_gain") := by
  induction ps generalizing st with
  | nil => simp [checkAlerts] at ha
  | cons p rest ih =>
    simp only [checkAlerts] at ha
    rcases List.mem_append.mp ha with h | h
    · obtain ⟨hy, htk, ht⟩ := mem_checkPositionAlerts h
      exact ⟨p, List.mem_cons_self p rest, hy, htk, ht⟩
    · obtain ⟨q, hq, hrest⟩ := ih h
      exact ⟨q, List.mem_cons_of_mem p hq, hrest⟩

/-- Fixture: enriched position breaching the default -5 loss threshold. -/
def breachPos : EnrichedPosition :=
  { base := applePos 150, dailyChange := -10, dailyChangePercent := -6,
    hasYesterdayData := true, shortTicker := "AAPL" }

/-- C7 counterexample: an AlertManager constructed with a config explicitly
setting both thresholds to null still emits a daily-loss event for a -6%
position, because the nullish coalescing in the constructor replaces the
explicit null by the default -5. -/
theorem nullConstruction_counterexample :
    ((checkAlerts
      (mkAlertManager { dailyLossThreshold := some none, dailyGainThreshold := some none })
      [breachPos] "2024-01-01").1.map (fun a => a.type)) = ["daily_loss"] := by
  with_unfolding_all decide

/-- C7 amended: a null threshold field disables that alert kind entirely, but
an explicit null in the constructor config does not yield a null field — the
constructor falls back to the defaults -5 and 10; a null threshold arises
only through updateThresholds. -/
theorem nullThreshold_disables :
    (∀ (st : AlertState) (ps : List EnrichedPosition) (d : String) (a : Alert),
      st.dailyLossThreshold = none → a ∈ (checkAlerts st ps d).1 → a.type ≠ "daily_loss") ∧
    (∀ (st : AlertState) (ps : List EnrichedPosition) (d : String) (a : Alert),
      st.dailyGainThreshold = none → a ∈ (checkAlerts st ps d).1 → a.type ≠ "daily_gain") ∧
    mkAlertManager { dailyLossThreshold := some none, dailyGainThreshold := some none } =
      { dailyLossThreshold := some (-5), dailyGainThreshold := some 10, shownAlerts := [] } ∧
    (∀ st : AlertState,
      (updateThresholds st
        { dailyLossThreshold := some none, dailyGainThreshold := some none }).dailyLossThreshold
          = none ∧
      (updateThresholds st
        { dailyLossThreshold := some none, dailyGainThreshold := some none }).dailyGainThreshold
          = none) := by
  refine ⟨?_, ?_, rfl, fun st => ⟨rfl, rfl⟩⟩
  · intro st ps d a hnone ha
    induction ps generalizing st with
    | nil => simp [checkAlerts] at ha
    | cons p rest ih =>
      simp only [checkAlerts] at ha
      rcases List.mem_append.mp ha with h | h
      · unfold checkPositionAlerts at h
        by_cases hy : p.hasYesterdayData
        · rw [if_pos hy] at h
          rw [checkLossAlert_none hnone] at h
          simp only [List.nil_append] at h
          obtain ⟨ht, _⟩ := mem_checkGainAlert h
          simp [ht]
        · rw [if_neg hy] at h
          simp at h
      · have hnone2 : (checkPositionAlerts st p d).2.dailyLossThreshold = none :=
          (checkPositionAlerts_state st p d).1.trans hnone
        exact ih _ hnone2 h
  · intro st ps d a hnone ha
    induction ps generalizing st with
    | nil => simp [checkAlerts] at ha
    | cons p rest ih =>
      simp only [checkAlerts] at ha
      rcases List.mem_append.mp ha with h | h
      · unfold checkPositionAlerts at h
        by_cases hy : p.hasYesterdayData
        · rw [if_pos hy] at h
          have hnone2 : (checkLossAlert st p d).2.dailyGainThreshold = none :=
            (checkLossAlert_state st p d).2.1.trans hnone
          rw [checkGainAlert_none hnone2] at h
          simp only [List.append_nil] at h
          obtain ⟨ht, _⟩ := mem_checkLossAlert h
          simp [ht]
        · rw [if_neg hy] at h
          simp at h
      · have hnone2 : (checkPositionAlerts st p d).2.dailyGainThreshold = none :=
          (checkPositionAlerts_state st p d).2.1.trans hnone
        exact ih _ hnone2 h

/-- Fixture: an AlertState whose loss threshold is null. -/
def noLossState : AlertState :=
  { dailyLossThreshold := none, dailyGainThreshold := some 10, shownAlerts := [] }

/-- Witness for C7's amended theorem: a state whose loss threshold is null
never labels an alert daily_loss, checked on a breaching position. -/
theorem nullThreshold_disables_witness :
    noLossState.dailyLossThreshold = none ∧
    ∀ a : Alert,
      a ∈ (checkAlerts noLossState [breachPos] "2024-01-01").1 → a.type ≠ "daily_loss" :=
  ⟨rfl, fun a ha =>
    nullThreshold_disables.1 noLossState [breachPos] "2024-01-01" a rfl ha⟩

/-- C8 counterexample: after a failed metadata fetch the cache is the empty
map, and the next refresh cycle does not attempt the fetch even though the
cache was never populated by a real fetch and the fetch would now succeed. -/
theorem refreshInstruments_no_retry_counterexample :
    refreshInstruments none (Except.error ()) = (some [], true) ∧
    (refreshInstruments (some []) (Except.ok
      [{ ticker := "AAPL_US_EQ", name := "Apple Inc", currencyCode := "USD",
         isin := "US0378331005" }])).2 = false :=
  ⟨rfl, rfl⟩

/-- C8 amended: a metadata fetch failure leaves the cache as an empty map,
and any non-null cache — including that empty failure marker — is never
refetched in any later refresh cycle of the process. -/
theorem refreshInstruments_failure_permanent :
    refreshInstruments none (Except.error ()) = (some [], true) ∧
    (∀ (m : List (String × InstrumentMeta)) (fetchResult : Except Unit (List Instrument)),
      refreshInstruments (some m) fetchResult = (some m, false)) :=
  ⟨rfl, fun _ _ => rfl⟩

/-! Lemmas for the date-key rendering (claim C9). -/

lemma natCharsAux_digits :
    ∀ (fuel n : Nat), ∀ c ∈ natCharsAux fuel n, ∃ k, k < 10 ∧ c = digitChar k := by
  intro fuel
  induction fuel with
  | zero =>
    intro n c hc
    simp [natCharsAux] at hc
  | succ f ih =>
    intro n c hc
    rw [natCharsAux] at hc
    by_cases hn : n < 10
    · rw [if_pos hn] at hc
      simp only [List.mem_singleton] at hc
      exact ⟨n, hn, hc⟩
    · rw [if_neg hn] at hc
      rcases List.mem_append.mp hc with h | h
      · exact ih (n / 10) c h
      · simp only [List.mem_singleton] at h
        exact ⟨n % 10, Nat.mod_lt n (by omega), h⟩

lemma digitChar_ne_T {k : Nat} (hk : k < 10) : (digitChar k != 'T') = true := by
  interval_cases k <;> decide

lemma mem_natChars_ne_T {n : Nat} {c : Char} (hc : c ∈ natChars n) : (c != 'T') = true := by
  obtain ⟨k, hk, rfl⟩ := natCharsAux_digits (n + 1) n c hc
  exact digitChar_ne_T hk

lemma mem_pad2_ne_T {n : Nat} {c : Char} (hc : c ∈ pad2 n) : (c != 'T') = true := by
  unfold pad2 at hc
  by_cases hn : n < 10
  · rw [if_pos hn] at hc
    rcases List.mem_cons.mp hc with rfl | hc
    · decide
    · simp only [List.mem_singleton] at hc
      subst hc
      exact digitChar_ne_T hn
  · rw [if_neg hn] at hc
    exact mem_natChars_ne_T hc

lemma isoDateChars_ne_T {d : Nat} {c : Char} (hc : c ∈ isoDateChars d) :
    (c != 'T') = true := by
  unfold isoDateChars at hc
  simp only [List.mem_append, List.mem_cons] at hc
  rcases hc with h | rfl | h | rfl | h
  · exact mem_natChars_ne_T h
  · decide
  · exact mem_pad2_ne_T h
  · decide
  · exact mem_pad2_ne_T h

lemma takeWhile_append_T (a b : List Char)
    (h : ∀ c ∈ a, (c != 'T') = true) :
    (a ++ 'T' :: b).takeWhile (fun c => c != 'T') = a := by
  induction a with
  | nil => simp [List.takeWhile_cons]
  | cons x xs ih =>
    have hx := h x (List.mem_cons_self x xs)
    simp only [List.cons_append, List.takeWhile_cons, hx, if_true]
    rw [ih (fun c hc => h c (List.mem_cons_of_mem x hc))]

/-- C9 amended: the snapshot date key is the "YYYY-MM-DD" rendering of the
timestamp's UTC calendar day (toISOString always reports UTC, not the host's
local time zone), and the alert-dedup day component uses the identical
derivation. -/
theorem dateToKey_utc :
    ∀ ms : Nat, dateToKey ms = isoDateChars (utcDay ms) ∧ alertDayChars ms = dateToKey ms := by
  intro ms
  refine ⟨?_, rfl⟩
  unfold dateToKey toISOChars
  exact takeWhile_append_T _ _ (fun c hc => isoDateChars_ne_T hc)

/-- C9 counterexample: at 2024-01-01T23:30Z on a host in a UTC+1 time zone
the local calendar day is 2024-01-02, but the snapshot key is "2024-01-01" -
the key is the UTC day, not the local day the claim requires. -/
theorem dateToKey_not_local :
    dateToKey 1704151800000 = "2024-01-01".data ∧
    localDay 1704151800000 60 = 19724 ∧
    isoDateChars 19724 = "2024-01-02".data ∧
    dateToKey 1704151800000 ≠ isoDateChars (localDay 1704151800000 60) := by
  refine ⟨by decide, by decide, by decide, by decide⟩

/-! Dedup machinery for checkAlerts (claim C4). -/

/-- A loss breach of this position is already recorded in the shown set. -/
def lossCovered (st : AlertState) (p : EnrichedPosition) (d : String) : Prop :=
  ∀ thr, st.dailyLossThreshold = some thr → p.dailyChangePercent ≤ thr →
    alertKey p.ticker "loss" d ∈ st.shownAlerts

/-- A gain breach of this position is already recorded in the shown set. -/
def gainCovered (st : AlertState) (p : EnrichedPosition) (d : String) : Prop :=
  ∀ thr, st.dailyGainThreshold = some thr → thr ≤ p.dailyChangePercent →
    alertKey p.ticker "gain" d ∈ st.shownAlerts

/-- Every breach of this position is already recorded in the shown set. -/
def positionCovered (st : AlertState) (p : EnrichedPosition) (d : String) : Prop :=
  p.hasYesterdayData = true → lossCovered st p d ∧ gainCovered st p d

lemma covered_mono {st st2 : AlertState} {p : EnrichedPosition} {d : String}
    (hL : st2.dailyLossThreshold = st.dailyLossThreshold)
    (hG : st2.dailyGainThreshold = st.dailyGainThreshold)
    (hS : ∀ k ∈ st.shownAlerts, k ∈ st2.shownAlerts)
    (h : positionCovered st p d) : positionCovered st2 p d := by
  intro hy
  obtain ⟨hl, hg⟩ := h hy
  exact ⟨fun thr ht hle => hS _ (hl thr (hL.symm.trans ht) hle),
         fun thr ht hle => hS _ (hg thr (hG.symm.trans ht) hle)⟩

lemma checkLossAlert_covered (st : AlertState) (p : EnrichedPosition) (d : String) :
    lossCovered (checkLossAlert st p d).2 p d := by
  obtain ⟨lossT, gainT, shown⟩ := st
  intro thr hthr hle
  have hst : lossT = some thr :=
    (checkLossAlert_state ⟨lossT, gainT, shown⟩ p d).1.symm.trans hthr
  subst hst
  dsimp only [checkLossAlert]
  rw [if_pos hle]
  by_cases h2 : alertKey p.ticker "loss" d ∈ shown
  · rw [if_pos h2]
    exact h2
  · rw [if_neg h2]
    exact List.mem_cons_self _ _

lemma checkGainAlert_covered (st : AlertState) (p : EnrichedPosition) (d : String) :
    gainCovered (checkGainAlert st p d).2 p d := by
  obtain ⟨lossT, gainT, shown⟩ := st
  intro thr hthr hle
  have hst : gainT = some thr :=
    (checkGainAlert_state ⟨lossT, gainT, shown⟩ p d).2.1.symm.trans hthr
  subst hst
  dsimp only [checkGainAlert]
  rw [if_pos hle]
  by_cases h2 : alertKey p.ticker "gain" d ∈ shown
  · rw [if_pos h2]
    exact h2
  · rw [if_neg h2]
    exact List.mem_cons_self _ _

lemma checkLossAlert_noop {st : AlertState} {p : EnrichedPosition} {d : String}
    (hl : lossCovered st p d) : checkLossAlert st p d = ([], st) := by
  obtain ⟨lossT, gainT, shown⟩ := st
  rcases lossT with _ | thr
  · rfl
  · dsimp only [checkLossAlert]
    by_cases h1 : p.dailyChangePercent ≤ thr
    · rw [if_pos h1, if_pos (hl thr rfl h1)]
    · rw [if_neg h1]

lemma checkGainAlert_noop {st : AlertState} {p : EnrichedPosition} {d : String}
    (hg : gainCovered st p d) : checkGainAlert st p d = ([], st) := by
  obtain ⟨lossT, gainT, shown⟩ := st
  rcases gainT with _ | thr
  · rfl
  · dsimp only [checkGainAlert]
    by_cases h1 : thr ≤ p.dailyChangePercent
    · rw [if_pos h1, if_pos (hg thr rfl h1)]
    · rw [if_neg h1]

lemma checkPositionAlerts_covered (st : AlertState) (p : EnrichedPosition) (d : String) :
    positionCovered (checkPositionAlerts st p d).2 p d := by
  intro hy
  have heq : (checkPositionAlerts st p d).2 =
      (checkGainAlert (checkLossAlert st p d).2 p d).2 := by
    unfold checkPositionAlerts
    rw [if_pos hy]
  rw [heq]
  constructor
  · have h1 := checkLossAlert_covered st p d
    obtain ⟨g1, g2, g3⟩ := checkGainAlert_state (checkLossAlert st p d).2 p d
    intro thr ht hle
    exact g3 _ (h1 thr (g1.symm.trans ht) hle)
  · exact checkGainAlert_covered (checkLossAlert st p d).2 p d

lemma checkPositionAlerts_noop {st : AlertState} {p : EnrichedPosition} {d : String}
    (h : positionCovered st p d) : checkPositionAlerts st p d = ([], st) := by
  unfold checkPositionAlerts
  by_cases hy : p.hasYesterdayData
  · rw [if_pos hy]
    obtain ⟨hl, hg⟩ := h hy
    rw [checkLossAlert_noop hl]
    dsimp only
    rw [checkGainAlert_noop hg]
    rfl
  · rw [if_neg hy]

lemma checkAlerts_covered {st : AlertState} {ps : List EnrichedPosition} {d : String} :
    ∀ p ∈ ps, positionCovered (checkAlerts st ps d).2 p d := by
  induction ps generalizing st with
  | nil =>
    intro p hp
    simp at hp
  | cons q rest ih =>
    intro p hp
    have heq : (checkAlerts st (q :: rest) d).2 =
        (checkAlerts (checkPositionAlerts st q d).2 rest d).2 := rfl
    rw [heq]
    rcases List.mem_cons.mp hp with rfl | hp2
    · have h1 := checkPositionAlerts_covered st p d
      obtain ⟨r1, r2, r3⟩ := checkAlerts_state (checkPositionAlerts st p d).2 rest d
      exact covered_mono r1 r2 r3 h1
    · exact ih p hp2

lemma checkAlerts_noop {st : AlertState} {ps : List EnrichedPosition} {d : String}
    (h : ∀ p ∈ ps, positionCovered st p d) : checkAlerts st ps d = ([], st) := by
  induction ps with
  | nil => rfl
  | cons q rest ih =>
    have hq := checkPositionAlerts_noop (h q (List.mem_cons_self q rest))
    show ((checkPositionAlerts st q d).1 ++
           (checkAlerts (checkPositionAlerts st q d).2 rest d).1,
          (checkAlerts (checkPositionAlerts st q d).2 rest d).2) = ([], st)
    rw [hq]
    dsimp only
    rw [ih (fun p hp => h p (List.mem_cons_of_mem q hp))]
    rfl

/-- Fixture: a fresh AlertManager state with the default thresholds. -/
def dedupState0 : AlertState :=
  { dailyLossThreshold := some (-5), dailyGainThreshold := some 10, shownAlerts := [] }

/-- Fixture: a state in which the key "k0" has already been shown. -/
def preShownState : AlertState :=
  { dailyLossThreshold := some (-5), dailyGainThreshold := some 10, shownAlerts := ["k0"] }

/-- C4: alert deduplication per (ticker, kind, day).  A second call with
identical input on the same day emits nothing and leaves the state
unchanged; shown keys are never removed (the only transition is
not-triggered to triggered); every emitted event comes from a position with
hasYesterdayData = true; and concretely a -6% breach against threshold -5
emits exactly one event on the first call, none on the second call the same
day, and one again after the day changes. -/
theorem checkAlerts_dedup :
    (∀ (st : AlertState) (ps : List EnrichedPosition) (d : String),
      checkAlerts (checkAlerts st ps d).2 ps d = ([], (checkAlerts st ps d).2)) ∧
    (∀ (st : AlertState) (ps : List EnrichedPosition) (d : String) (k : String),
      k ∈ st.shownAlerts → k ∈ (checkAlerts st ps d).2.shownAlerts) ∧
    (∀ (st : AlertState) (ps : List EnrichedPosition) (d : String) (a : Alert),
      a ∈ (checkAlerts st ps d).1 →
        ∃ p ∈ ps, p.hasYesterdayData = true ∧ a.ticker = p.ticker) ∧
    (checkAlerts dedupState0 [breachPos] "2024-01-01").1.map (fun a => a.type) =
      ["daily_loss"] ∧
    (checkAlerts (checkAlerts dedupState0 [breachPos] "2024-01-01").2
      [breachPos] "2024-01-01").1 = [] ∧
    (checkAlerts (checkAlerts dedupState0 [breachPos] "2024-01-01").2
      [breachPos] "2024-01-02").1.map (fun a => a.type) = ["daily_loss"] := by
  refine ⟨?_, ?_, ?_, ?_, ?_, ?_⟩
  · intro st ps d
    exact checkAlerts_noop checkAlerts_covered
  · intro st ps d k hk
    exact (checkAlerts_state st ps d).2.2 k hk
  · intro st ps d a ha
    obtain ⟨p, hp, hy, ht, _⟩ := mem_checkAlerts ha
    exact ⟨p, hp, hy, ht⟩
  · with_unfolding_all decide
  · with_unfolding_all decide
  · with_unfolding_all decide

/-- Witness for C4 at a concrete input: a previously shown key survives a
checkAlerts call. -/
theorem checkAlerts_dedup_witness :
    "k0" ∈ preShownState.shownAlerts ∧
    "k0" ∈ (checkAlerts preShownState [breachPos] "2024-01-01").2.shownAlerts :=
  ⟨by decide,
   checkAlerts_dedup.2.1 preShownState [breachPos] "2024-01-01" "k0" (by decide)⟩

/-! Characterization of detectDowntrends (claims C5, C6, C10). -/

lemma mem_detectDowntrends {st : StoreState} {days : Nat} {threshold : ℚ} {r : TrendResult} :
    r ∈ detectDowntrends st days threshold ↔
      2 ≤ (windowKeys (sortedKeys st) days).length ∧
      ∃ firstSnapshot lastSnapshot currentPos startPos,
        getKey st.snapshots ((windowKeys (sortedKeys st) days).headD 0) = some firstSnapshot ∧
        getKey st.snapshots ((windowKeys (sortedKeys st) days).getLastD 0) = some lastSnapshot ∧
        currentPos ∈ lastSnapshot.positions ∧
        lookupTicker firstSnapshot.positions currentPos.ticker = some startPos ∧
        (currentPos.currentPrice - startPos.currentPrice) / startPos.currentPrice * 100
          ≤ threshold ∧
        r = { ticker := currentPos.ticker
              shortTicker := extractShortTicker currentPos.ticker
              startPrice := startPos.currentPrice
              endPrice := currentPos.currentPrice
              changePercent :=
                (currentPos.currentPrice - startPos.currentPrice) / startPos.currentPrice * 100
              days := (windowKeys (sortedKeys st) days).length } := by
  simp only [detectDowntrends]
  by_cases hlen : (windowKeys (sortedKeys st) days).length < 2
  · rw [if_pos hlen]
    constructor
    · intro h
      exact absurd h (List.not_mem_nil r)
    · rintro ⟨h2, _⟩
      omega
  · rw [if_neg hlen]
    have h2 : 2 ≤ (windowKeys (sortedKeys st) days).length := Nat.le_of_not_lt hlen
    constructor
    · intro h
      split at h
      · rename_i fs ls heq1 heq2
        rw [mem_stableSort, List.mem_filterMap] at h
        obtain ⟨cp, hcp, hval⟩ := h
        rcases hsp : lookupTicker fs.positions cp.ticker with _ | sp
        · rw [hsp] at hval
          exact Option.noConfusion hval
        · rw [hsp] at hval
          dsimp only at hval
          by_cases hth :
              (cp.currentPrice - sp.currentPrice) / sp.currentPrice * 100 ≤ threshold
          · rw [if_pos hth] at hval
            obtain rfl := Option.some.inj hval
            exact ⟨h2, fs, ls, cp, sp, heq1, heq2, hcp, hsp, hth, rfl⟩
          · rw [if_neg hth] at hval
            exact Option.noConfusion hval
      · exact absurd h (List.not_mem_nil r)
    · rintro ⟨_, fs, ls, cp, sp, hf, hl, hcp, hsp, hth, rfl⟩
      split
      · rename_i fs2 ls2 heq1 heq2
        rw [hf] at heq1
        rw [hl] at heq2
        obtain rfl := Option.some.inj heq1
        obtain rfl := Option.some.inj heq2
        rw [mem_stableSort, List.mem_filterMap]
        refine ⟨cp, hcp, ?_⟩
        dsimp only
        rw [hsp]
        dsimp only
        rw [if_pos hth]
      · rename_i hno
        exact (hno fs ls hf hl).elim

lemma detectDowntrends_sorted (st : StoreState) (days : Nat) (threshold : ℚ) :
    (detectDowntrends st days threshold).Pairwise
      (fun a b => a.changePercent ≤ b.changePercent) := by
  simp only [detectDowntrends]
  split
  · exact List.Pairwise.nil
  · split
    · refine List.Pairwise.imp (fun h => of_decide_eq_true h) (pairwise_stableSort ?_ ?_ _)
      · intro a b
        rcases le_total a.changePercent b.changePercent with h | h
        · exact Or.inl (decide_eq_true h)
        · exact Or.inr (decide_eq_true h)
      · intro a b c hab hbc
        exact decide_eq_true (le_trans (of_decide_eq_true hab) (of_decide_eq_true hbc))
    · exact List.Pairwise.nil

lemma startPrice_mem_divisors {st : StoreState} {days : Nat} {threshold : ℚ} {r : TrendResult}
    (h : r ∈ detectDowntrends st days threshold) :
    r.startPrice ∈ detectDowntrendsDivisors st days := by
  rw [mem_detectDowntrends] at h
  obtain ⟨h2, fs, ls, cp, sp, hf, hl, hcp, hsp, hth, rfl⟩ := h
  simp only [detectDowntrendsDivisors]
  rw [if_neg (by omega : ¬ (windowKeys (sortedKeys st) days).length < 2)]
  split
  · rename_i fs2 ls2 heq1 heq2
    rw [hf] at heq1
    rw [hl] at heq2
    obtain rfl := Option.some.inj heq1
    obtain rfl := Option.some.inj heq2
    rw [List.mem_filterMap]
    refine ⟨cp, hcp, ?_⟩
    rw [hsp]
    rfl
  · rename_i hno
    exact (hno fs ls hf hl).elim

/-! Dedup lemmas for checkDowntrendAlerts (claim C6). -/

/-- The downtrend key of this trend is already in the shown set. -/
def trendCovered (st : AlertState) (tr : TrendResult) (d : String) : Prop :=
  alertKey tr.ticker "downtrend" d ∈ st.shownAlerts

lemma checkDowntrendAlerts_shown_mono (st : AlertState) (trends : List TrendResult)
    (d : String) :
    ∀ k ∈ st.shownAlerts, k ∈ (checkDowntrendAlerts st trends d).2.shownAlerts := by
  induction trends generalizing st with
  | nil => exact fun k hk => hk
  | cons t rest ih =>
    intro k hk
    simp only [checkDowntrendAlerts]
    split
    · exact ih st k hk
    · exact ih _ k (List.mem_cons_of_mem _ hk)

lemma checkDowntrendAlerts_covered (st : AlertState) (trends : List TrendResult) (d : String) :
    ∀ tr ∈ trends, trendCovered (checkDowntrendAlerts st trends d).2 tr d := by
  induction trends generalizing st with
  | nil =>
    intro tr h
    simp at h
  | cons t rest ih =>
    intro tr htr
    simp only [checkDowntrendAlerts]
    split
    · rename_i hmem
      rcases List.mem_cons.mp htr with rfl | h2
      · exact checkDowntrendAlerts_shown_mono st rest d _ hmem
      · exact ih st tr h2
    · rcases List.mem_cons.mp htr with rfl | h2
      · exact checkDowntrendAlerts_shown_mono _ rest d _ (List.mem_cons_self _ _)
      · exact ih _ tr h2

lemma checkDowntrendAlerts_noop {st : AlertState} {trends : List TrendResult} {d : String}
    (h : ∀ tr ∈ trends, trendCovered st tr d) :
    checkDowntrendAlerts st trends d = ([], st) := by
  induction trends with
  | nil => rfl
  | cons t rest ih =>
    have ht : alertKey t.ticker "downtrend" d ∈ st.shownAlerts :=
      h t (List.mem_cons_self t rest)
    simp only [checkDowntrendAlerts]
    rw [if_pos ht]
    exact ih (fun tr htr => h tr (List.mem_cons_of_mem t htr))

lemma mem_checkDowntrendAlerts {st : AlertState} {trends : List TrendResult} {d : String}
    {a : Alert} (ha : a ∈ (checkDowntrendAlerts st trends d).1) :
    a.type = "downtrend" ∧ ∃ tr ∈ trends, a.ticker = tr.ticker := by
  induction trends generalizing st with
  | nil => simp [checkDowntrendAlerts] at ha
  | cons t rest ih =>
    simp only [checkDowntrendAlerts] at ha
    split at ha
    · obtain ⟨ht, tr, htr, htk⟩ := ih ha
      exact ⟨ht, tr, List.mem_cons_of_mem t htr, htk⟩
    · rcases List.mem_cons.mp ha with rfl | h2
      · exact ⟨rfl, t, List.mem_cons_self t rest, rfl⟩
      · obtain ⟨ht, tr, htr, htk⟩ := ih h2
        exact ⟨ht, tr, List.mem_cons_of_mem t htr, htk⟩

lemma checkDowntrendAlerts_keys {st : AlertState} {trends : List TrendResult} {d : String}
    {k : String} (hk : k ∈ (checkDowntrendAlerts st trends d).2.shownAlerts) :
    k ∈ st.shownAlerts ∨ ∃ tr ∈ trends, k = alertKey tr.ticker "downtrend" d := by
  induction trends generalizing st with
  | nil => exact Or.inl hk
  | cons t rest ih =>
    simp only [checkDowntrendAlerts] at hk
    split at hk
    · rcases ih hk with h | ⟨tr, htr, rfl⟩
      · exact Or.inl h
      · exact Or.inr ⟨tr, List.mem_cons_of_mem t htr, rfl⟩
    · rcases ih hk with h | ⟨tr, htr, rfl⟩
      · rcases List.mem_cons.mp h with rfl | h2
        · exact Or.inr ⟨t, List.mem_cons_self t rest, rfl⟩
        · exact Or.inl h2
      · exact Or.inr ⟨tr, List.mem_cons_of_mem t htr, rfl⟩

/-! Fixtures for the trend claims. -/

/-- Fixture: a position whose average and current price are both `p`. -/
def mkPos (t : String) (p : ℚ) : Position :=
  { ticker := t, quantity := 1, averagePrice := p, currentPrice := p, ppl := 0 }

/-- Fixture: the spec example window, AAPL at 100 on day 1 and 85 on day 5. -/
def trendStore : StoreState :=
  { snapshots := [(1, { positions := [mkPos "AAPL_US_EQ" 100], timestamp := 0 }),
                  (5, { positions := [mkPos "AAPL_US_EQ" 85], timestamp := 0 })],
    lastPositions := [], lastFetchTime := none }

/-- Fixture: two tickers with the identical -20 percent change, stored in the
last snapshot in the order BBB then AAA. -/
def tieStore : StoreState :=
  { snapshots := [(1, { positions := [mkPos "BBB" 100, mkPos "AAA" 200], timestamp := 0 }),
                  (2, { positions := [mkPos "BBB" 80, mkPos "AAA" 160], timestamp := 0 })],
    lastPositions := [], lastFetchTime := none }

/-- Fixture: three stored days for the `slice(-0)` behaviour. -/
def threeDayStore : StoreState :=
  { snapshots := [(1, { positions := [mkPos "CCC" 100], timestamp := 0 }),
                  (2, { positions := [mkPos "CCC" 95], timestamp := 0 }),
                  (3, { positions := [mkPos "CCC" 50], timestamp := 0 })],
    lastPositions := [], lastFetchTime := none }

/-- Fixture: a matched ticker whose start-day price is zero. -/
def zeroStartStore : StoreState :=
  { snapshots := [(1, { positions := [mkPos "ZZZ" 0], timestamp := 0 }),
                  (2, { positions := [mkPos "ZZZ" 5], timestamp := 0 })],
    lastPositions := [], lastFetchTime := none }

/-- Fixture: AAPL rising from 100 to 115 over the window. -/
def upStore : StoreState :=
  { snapshots := [(1, { positions := [mkPos "AAPL_US_EQ" 100], timestamp := 0 }),
                  (5, { positions := [mkPos "AAPL_US_EQ" 115], timestamp := 0 })],
    lastPositions := [], lastFetchTime := none }

/-- Fixture: a rising trend record handed to the trend-alert path. -/
def upTrend : TrendResult :=
  { ticker := "AAPL_US_EQ", shortTicker := "AAPL", startPrice := 100, endPrice := 115,
    changePercent := 15, days := 2 }

/-- C5 amended: over any window of size at least 1, detection uses only the
first and last of the most recent (up to N) stored snapshot days; each
reported ticker is matched between them with the stated change formula; the
days field is the number of snapshot days used; fewer than 2 days gives an
empty result; output is sorted by changePercent ascending — but ties keep
the order of the last snapshot's position list (stable sort), not ticker
order; and the spec's 2-entry example yields AAPL at -15 over 2 days. -/
theorem detectDowntrends_spec (st : StoreState) (days : Nat) (threshold : ℚ)
    (hdays : 1 ≤ days) :
    ((windowKeys (sortedKeys st) days).length < 2 →
      detectDowntrends st days threshold = []) ∧
    (windowKeys (sortedKeys st) days).length ≤ days ∧
    (∀ r ∈ detectDowntrends st days threshold,
      ∃ firstSnapshot lastSnapshot currentPos startPos,
        getKey st.snapshots ((windowKeys (sortedKeys st) days).headD 0) = some firstSnapshot ∧
        getKey st.snapshots ((windowKeys (sortedKeys st) days).getLastD 0) = some lastSnapshot ∧
        currentPos ∈ lastSnapshot.positions ∧
        currentPos.ticker = r.ticker ∧
        lookupTicker firstSnapshot.positions currentPos.ticker = some startPos ∧
        r.startPrice = startPos.currentPrice ∧
        r.endPrice = currentPos.currentPrice ∧
        r.changePercent = (r.endPrice - r.startPrice) / r.startPrice * 100 ∧
        r.changePercent ≤ threshold ∧
        r.days = (windowKeys (sortedKeys st) days).length) ∧
    (∀ firstSnapshot lastSnapshot : Snapshot,
      getKey st.snapshots ((windowKeys (sortedKeys st) days).headD 0) = some firstSnapshot →
      getKey st.snapshots ((windowKeys (sortedKeys st) days).getLastD 0) = some lastSnapshot →
      2 ≤ (windowKeys (sortedKeys st) days).length →
      ∀ currentPos ∈ lastSnapshot.positions, ∀ startPos,
        lookupTicker firstSnapshot.positions currentPos.ticker = some startPos →
        (currentPos.currentPrice - startPos.currentPrice) / startPos.currentPrice * 100
          ≤ threshold →
        ∃ r ∈ detectDowntrends st days threshold, r.ticker = currentPos.ticker) ∧
    (detectDowntrends st days threshold).Pairwise
      (fun a b => a.changePercent ≤ b.changePercent) ∧
    (detectDowntrends trendStore 5 (-10)).map (fun r => (r.ticker, r.changePercent, r.days)) =
      [("AAPL_US_EQ", -15, 2)] := by
  refine ⟨?_, ?_, ?_, ?_, detectDowntrends_sorted st days threshold, ?_⟩
  · intro hlen
    simp only [detectDowntrends]
    rw [if_pos hlen]
  · unfold windowKeys
    rw [if_neg (by omega : ¬ days = 0)]
    rw [List.length_drop]
    omega
  · intro r hr
    rw [mem_detectDowntrends] at hr
    obtain ⟨h2, fs, ls, cp, sp, hf, hl, hcp, hsp, hth, rfl⟩ := hr
    exact ⟨fs, ls, cp, sp, hf, hl, hcp, rfl, hsp, rfl, rfl, rfl, hth, rfl⟩
  · intro fs ls hf hl h2 cp hcp sp hsp hth
    have hmem := mem_detectDowntrends.mpr ⟨h2, fs, ls, cp, sp, hf, hl, hcp, hsp, hth, rfl⟩
    exact ⟨_, hmem, rfl⟩
  · with_unfolding_all decide

/-- Witness for C5's amended theorem at the spec example store. -/
theorem detectDowntrends_spec_witness :
    1 ≤ 5 ∧ (windowKeys (sortedKeys trendStore) 5).length ≤ 5 :=
  ⟨by decide, (detectDowntrends_spec trendStore 5 (-10) (by decide)).2.1⟩

/-- C5 counterexample: with two tickers tied at -20 percent the output keeps
the last snapshot's order BBB before AAA although AAA is lexicographically
first, so ties are not broken by ticker; and with a requested window of 0
days the code uses all three stored days and reports days = 3 instead of
returning an empty result. -/
theorem detectDowntrends_tiebreak_counterexample :
    (detectDowntrends tieStore 5 (-10)).map (fun r => r.ticker) = ["BBB", "AAA"] ∧
    (detectDowntrends tieStore 5 (-10)).map (fun r => r.changePercent) = [-20, -20] ∧
    "AAA" < "BBB" ∧
    (detectDowntrends threeDayStore 0 (-10)).map (fun r => (r.ticker, r.days)) =
      [("CCC", 3)] := by
  refine ⟨?_, ?_, ?_, ?_⟩ <;> with_unfolding_all decide

/-- C6 amended: the only trend the system detects is the downtrend
(changePercent at or below the threshold); there is no uptrend detection,
and every trend alert — whatever the sign of its change — is emitted with
type "downtrend" and deduplicated under a key of kind "downtrend"; the
trend-alert dedup is idempotent within a day. -/
theorem downtrends_only (st0 : StoreState) :
    (∀ (days : Nat) (t : ℚ) (r : TrendResult),
      r ∈ detectDowntrends st0 days t → r.changePercent ≤ t) ∧
    (∀ (st : AlertState) (trends : List TrendResult) (d : String) (a : Alert),
      a ∈ (checkDowntrendAlerts st trends d).1 → a.type = "downtrend") ∧
    (∀ (st : AlertState) (trends : List TrendResult) (d : String) (k : String),
      k ∈ (checkDowntrendAlerts st trends d).2.shownAlerts →
        k ∈ st.shownAlerts ∨ ∃ tr ∈ trends, k = alertKey tr.ticker "downtrend" d) ∧
    (∀ (st : AlertState) (trends : List TrendResult) (d : String),
      checkDowntrendAlerts (checkDowntrendAlerts st trends d).2 trends d =
        ([], (checkDowntrendAlerts st trends d).2)) := by
  refine ⟨?_, ?_, ?_, ?_⟩
  · intro days t r hr
    rw [mem_detectDowntrends] at hr
    obtain ⟨_, fs, ls, cp, sp, _, _, _, _, hth, rfl⟩ := hr
    exact hth
  · intro st trends d a ha
    exact (mem_checkDowntrendAlerts ha).1
  · intro st trends d k hk
    exact checkDowntrendAlerts_keys hk
  · intro st trends d
    exact checkDowntrendAlerts_noop (checkDowntrendAlerts_covered st trends d)

/-- Witness for C6's amended theorem at a concrete rising trend. -/
theorem downtrends_only_witness :
    upTrend ∈ [upTrend] ∧
    ∀ a ∈ (checkDowntrendAlerts dedupState0 [upTrend] "2024-01-01").1,
      a.type = "downtrend" :=
  ⟨List.mem_cons_self upTrend [],
   fun a ha => (downtrends_only trendStore).2.1 dedupState0 [upTrend] "2024-01-01" a ha⟩

/-- C6 counterexample: AAPL rises 15 percent, at or above the positive
threshold 10, yet detectDowntrends reports nothing (there is no symmetric
uptrend variant), and a rising trend pushed through the trend-alert path is
typed and keyed "downtrend", never "uptrend". -/
theorem no_uptrend_counterexample :
    ((115:ℚ) - 100) / 100 * 100 = 15 ∧
    (10:ℚ) ≤ 15 ∧
    detectDowntrends upStore 5 10 = [] ∧
    (checkDowntrendAlerts dedupState0 [upTrend] "2024-01-01").2.shownAlerts =
      ["AAPL_US_EQ:downtrend:2024-01-01"] ∧
    (checkDowntrendAlerts dedupState0 [upTrend] "2024-01-01").1.map (fun a => a.type) =
      ["downtrend"] := by
  refine ⟨?_, ?_, ?_, ?_, ?_⟩ <;> with_unfolding_all decide

/-- C10: when every matched start-day price is nonzero, every reported
changePercent is the well-defined ratio (it satisfies the defining equation
cleared of the division); the precondition is necessary — detectDowntrends
has no zero guard, and the concrete store with a matched start price of 0
makes it divide by zero — whereas calculateDailyChanges only ever divides by
a previous price that is strictly positive. -/
theorem detectDowntrends_division :
    (∀ (st : StoreState) (days : Nat) (t : ℚ),
      (∀ q ∈ detectDowntrendsDivisors st days, q ≠ 0) →
      ∀ r ∈ detectDowntrends st days t,
        r.startPrice ≠ 0 ∧
        r.changePercent = (r.endPrice - r.startPrice) / r.startPrice * 100 ∧
        r.changePercent * r.startPrice = (r.endPrice - r.startPrice) * 100) ∧
    0 ∈ detectDowntrendsDivisors zeroStartStore 5 ∧
    (∀ (now : Nat) (st : StoreState) (cur : List Position),
      ∀ q ∈ calculateDailyChangesDivisors now st cur, 0 < q) := by
  refine ⟨?_, ?_, ?_⟩
  · intro st days t hdiv r hr
    have hne : r.startPrice ≠ 0 := hdiv _ (startPrice_mem_divisors hr)
    rw [mem_detectDowntrends] at hr
    obtain ⟨h2, fs, ls, cp, sp, hf, hl, hcp, hsp, hth, rfl⟩ := hr
    refine ⟨hne, rfl, ?_⟩
    show (cp.currentPrice - sp.currentPrice) / sp.currentPrice * 100 * sp.currentPrice =
      (cp.currentPrice - sp.currentPrice) * 100
    have hne2 : sp.currentPrice ≠ 0 := hne
    field_simp
  · decide
  · intro now st cur q hq
    simp only [calculateDailyChangesDivisors, List.mem_filterMap] at hq
    obtain ⟨p, hp, hval⟩ := hq
    rcases hyp : lookupTicker (yesterdayPositions now st) p.ticker with _ | yp
    · rw [hyp] at hval
      exact Option.noConfusion hval
    · rw [hyp] at hval
      dsimp only at hval
      by_cases h0 : 0 < yp.currentPrice
      · rw [if_pos h0] at hval
        obtain rfl := Option.some.inj hval
        exact h0
      · rw [if_neg h0] at hval
        exact Option.noConfusion hval

/-- Witness for C10 at the spec example store, whose only divisor is 100. -/
theorem detectDowntrends_division_witness :
    (∀ q ∈ detectDowntrendsDivisors trendStore 5, q ≠ 0) ∧
    ∀ r ∈ detectDowntrends trendStore 5 (-10),
      r.startPrice ≠ 0 ∧
      r.changePercent = (r.endPrice - r.startPrice) / r.startPrice * 100 ∧
      r.changePercent * r.startPrice = (r.endPrice - r.startPrice) * 100 :=
  ⟨by decide, detectDowntrends_division.1 trendStore 5 (-10) (by decide)⟩

end T212
